import Mathlib

/-!
Verification of the txt-to-epub conversion pipeline (`src/convert.py`).

Text is modelled as `List Char`.  The two chapter-boundary regexes of
`txt_to_epub` are embedded as deterministic matchers, the behaviour of
Python's `re.split` (with one capture group, `re.M`) as a scanner that
records, for every match, the uncaptured whitespace consumed on either
side of the captured heading.  The packaging loop, the language
resolution and the unsupported-language early return are embedded as
pure functions.
-/

namespace Txt2Epub

abbrev Str := List Char

/-- Python's `\s` for `str` patterns: ASCII whitespace, the four
information-separator controls, NEL, and the Unicode space characters. -/
def pySpaceChars : Str :=
  ['\t', '\n', '\x0b', '\x0c', '\r', '\x1c', '\x1d', '\x1e', '\x1f', ' ',
   '\x85', '\xa0', '\u1680', '\u2000', '\u2001', '\u2002', '\u2003',
   '\u2004', '\u2005', '\u2006', '\u2007', '\u2008', '\u2009', '\u200a',
   '\u2028', '\u2029', '\u202f', '\u205f', '\u3000']

def pyIsSpace (c : Char) : Bool := pySpaceChars.contains c

/-- `.` under `re.M` without `re.S`: any character except a newline. -/
def notNl (c : Char) : Bool := c != '\n'

/-- The character class `[Chapter]` of the English pattern
`r"^\s*([Chapter].*)\s*"`: the distinct characters of the word. -/
def enClassChars : Str := ['C', 'h', 'a', 'p', 't', 'e', 'r']

/-- The class `[第卷]` of the Chinese pattern. -/
def zhMarkerChars : Str := ['第', '卷']

/-- The class `[0123456789一二三四五六七八九十零〇百千两]` of the Chinese pattern. -/
def zhNumeralChars : Str :=
  ['0', '1', '2', '3', '4', '5', '6', '7', '8', '9',
   '一', '二', '三', '四', '五', '六', '七', '八', '九', '十',
   '零', '〇', '百', '千', '两']

/-- The class `[章回部节集卷]` of the Chinese pattern. -/
def zhUnitChars : Str := ['章', '回', '部', '节', '集', '卷']

/-- The two boundary patterns selected by `txt_to_epub`'s
language-specific settings. -/
inductive Pat
  | en
  | zh
deriving DecidableEq

/-- Match of the capture group at the head of `s`, returning the captured
text and the remainder.  For `en` the group is `[Chapter].*`; for `zh` it
is `[第卷][0123456789一二三四五六七八九十零〇百千两]*[章回部节集卷].*`.
Greedy quantifiers are deterministic here: the numeral class is disjoint
from the unit class, so backtracking out of a maximal run can never
succeed, and nothing follows `.*` inside the group. -/
def groupMatch : Pat → Str → Option (Str × Str)
  | .en, c :: cs =>
    if enClassChars.contains c then
      some (c :: cs.takeWhile notNl, cs.dropWhile notNl)
    else none
  | .zh, c :: cs =>
    if zhMarkerChars.contains c then
      match cs.dropWhile (zhNumeralChars.contains ·) with
      | u :: r2 =>
        if zhUnitChars.contains u then
          some (c :: (cs.takeWhile (zhNumeralChars.contains ·) ++
                      u :: r2.takeWhile notNl),
                r2.dropWhile notNl)
        else none
      | [] => none
    else none
  | _, [] => none

/-- Attempt of the whole pattern `^\s*(group)\s*` at one position (the
`^` anchor is checked by the caller).  Returns the whitespace consumed
before the group, the captured group, the whitespace consumed after it,
and the rest of the text.  The leading `\s*` is maximal: the group starts
with a non-whitespace class character, so giving characters back can
never let the group match. -/
def tryMatch (p : Pat) (s : Str) : Option (Str × Str × Str × Str) :=
  match groupMatch p (s.dropWhile pyIsSpace) with
  | none => none
  | some (g, r) =>
    some (s.takeWhile pyIsSpace, g, r.takeWhile pyIsSpace, r.dropWhile pyIsSpace)

/-- Leftmost match search.  `atStart` tells whether the current position
is at the start of the string or right after a `'\n'` (the `re.M`
meaning of `^`).  Returns the text scanned over, the three match parts,
and the rest. -/
def findNext (p : Pat) : Str → Bool → Option (Str × Str × Str × Str × Str)
  | [], _ => none
  | c :: cs, atStart =>
    match (if atStart then tryMatch p (c :: cs) else none) with
    | some (l, g, t, r) => some ([], l, g, t, r)
    | none => (findNext p cs (c == '\n')).map (fun x => (c :: x.1, x.2))

/-- One `re.split` field: a captured heading together with the uncaptured
whitespace the match consumed around it and the text (`body`) between
this match and the next one (or the end of the text). -/
structure MatchRec where
  lead : Str
  heading : Str
  trail : Str
  body : Str
deriving DecidableEq

/-- Scanner for all non-overlapping matches, fuelled (each match consumes
at least the one captured class character, so `length + 1` fuel always
suffices).  The next search starts right after the consumed trailing
whitespace, and `^` is re-checked against the character of the original
text preceding that position. -/
def segAuxFuel (p : Pat) : Nat → Str → Bool → Str × List MatchRec
  | 0, s, _ => (s, [])
  | fuel + 1, s, atStart =>
    match findNext p s atStart with
    | none => (s, [])
    | some (b, l, g, t, r) =>
      let rest := segAuxFuel p fuel r ((b ++ l ++ g ++ t).getLast? == some '\n')
      (b, ⟨l, g, t, rest.1⟩ :: rest.2)

/-- `re.split(regex, text, flags=re.M)` in structured form: the text
before the first match, and one record per match. -/
def segment (p : Pat) (s : Str) : Str × List MatchRec :=
  segAuxFuel p (s.length + 1) s true

/-- The raw `re.split` result list
`['', C1, c1, C2, c2, ..., Cn, cn]` of line 144. -/
def splitsOf (p : Pat) (s : Str) : List Str :=
  (segment p s).1 :: (segment p s).2.flatMap (fun m => [m.heading, m.body])

/-- The chapter-extraction loop `for i in range(1, len(splits) - 1, 2)`
of lines 148–155, reading `splits[i]` as the title and `splits[i+1]` as
the body; `range(1, L - 1, 2)` has `(L - 1) / 2` iterations `i = 2k+1`. -/
def chaptersFromSplits (splits : List Str) : List (Str × Str) :=
  (List.range ((splits.length - 1) / 2)).map
    (fun k => (splits.getD (2 * k + 1) [], splits.getD (2 * k + 2) []))

/-- Chapters produced for a text: the loop applied to the split list. -/
def chaptersOf (p : Pat) (s : Str) : List (Str × Str) :=
  chaptersFromSplits (splitsOf p s)

/-- Concatenation of the raw split fields: preamble, then each heading
and body in order.  This is what the "lossless split" spec sentence is
about. -/
def joinSplits (p : Pat) (s : Str) : Str :=
  (splitsOf p s).flatten

/-- `splits[i+1].replace('\n', '<br/>')` of line 152. -/
def replaceNl : Str → Str
  | [] => []
  | c :: cs => if c = '\n' then "<br/>".data ++ replaceNl cs else c :: replaceNl cs

/-- The chapter content template
`'<html><body><p>{}</p></body></html>'` of line 152. -/
def htmlWrap (body : Str) : Str :=
  "<html><body><p>".data ++ replaceNl body ++ "</p></body></html>".data

/-- One `epub.EpubHtml` chapter item (line 151–152). -/
structure ContentUnit where
  title : Str
  fileName : Str
  lang : String
  content : Str
deriving DecidableEq

/-- One `epub.Link` table-of-contents entry (line 154). -/
structure TocLink where
  href : Str
  title : Str
  uid : Str
deriving DecidableEq

/-- An element of `book.spine`: the initial uid string (line 145) or a
chapter item appended by the loop (line 155). -/
inductive SpineItem
  | uid (s : Str)
  | chap (c : ContentUnit)
deriving DecidableEq

/-- The `epub.EpubBook` state as `txt_to_epub` leaves it before
`write_epub`: metadata, chapter items added with `add_item`, the
`book.toc` links, the spine, and the NCX/Nav items of lines 158–159. -/
structure Package where
  title : Str
  lang : String
  identifier : Option String
  author : Option String
  chapters : List ContentUnit
  toc : List TocLink
  spine : List SpineItem
  navUid : Str
  hasNcx : Bool
  hasNav : Bool
deriving DecidableEq

/-- Python truthiness test `if not lang:` for an optional string
argument: `None` and the empty string are falsy. -/
def isFalsy : Option String → Bool
  | none => true
  | some s => s == ""

/-- Lines 113–118: if `lang` is falsy, run the detector; when it raises,
fall back to `'zh-cn'` and record (print) the warning instead of
propagating.  The external `langdetect.detect` call is abstracted as its
outcome `detectResult` (success with a tag, or the raised error's
message).  Returns the resolved tag and the warning, if one was
printed. -/
def resolveLang (langOpt : Option String) (detectResult : Except String String) :
    String × Option String :=
  if isFalsy langOpt then
    match detectResult with
    | .ok l => (l, none)
    | .error e =>
      ("zh-cn", some ("Error in language detection: " ++ e ++ ", use zh-cn instead."))
  else
    (langOpt.getD "", none)

/-- The failure outcome of the `else: print(...); return` branch of
lines 139–141: the conversion stops before anything is written.  The
spec names this outcome `UnsupportedLanguage`. -/
inductive ConvError
  | unsupportedLanguage (lang : String)
deriving DecidableEq

/-- Lines 143–159: split the text, seed the spine with the uid string,
then for each `i = 2k + 1` build the `EpubHtml` chapter named
`chap_{i}.xhtml`, append the `Link` to `book.toc` and the chapter to the
spine, and finally add the NCX and Nav items. -/
def buildPackage (p : Pat) (spineUid : Str) (lang : String) (title : Str)
    (author id : Option String) (content : Str) : Package :=
  let splits := splitsOf p content
  let idxs := List.range ((splits.length - 1) / 2)
  let chs := idxs.map (fun k =>
    ({ title := splits.getD (2 * k + 1) []
       fileName := ("chap_" ++ Nat.repr (2 * k + 1) ++ ".xhtml").data
       lang := lang
       content := htmlWrap (splits.getD (2 * k + 2) []) } : ContentUnit))
  { title := title
    lang := lang
    identifier := id
    author := author
    chapters := chs
    toc := idxs.map (fun k =>
      { href := ("chap_" ++ Nat.repr (2 * k + 1) ++ ".xhtml").data
        title := splits.getD (2 * k + 1) []
        uid := ("chap" ++ Nat.repr (2 * k + 1)).data })
    spine := SpineItem.uid spineUid :: chs.map SpineItem.chap
    navUid := spineUid
    hasNcx := true
    hasNav := true }

/-- The core of `txt_to_epub` from the point where `book_content` is in
hand and the defaults are applied: resolve the language (lines 113–118),
select the language-specific settings (lines 130–141), and build the
book that `write_epub` serializes (lines 143–162).  The unsupported
branch prints and returns `None`, so no file is written: that outcome is
the error value. -/
def txtToEpub (content : Str) (author : Option String) (title : Str)
    (id : Option String) (langOpt : Option String)
    (detectResult : Except String String) : Except ConvError Package :=
  let lang := (resolveLang langOpt detectResult).1
  if lang = "zh-cn" then
    .ok (buildPackage .zh "目录".data lang title author id content)
  else if lang = "en" then
    .ok (buildPackage .en "Table of Content".data lang title author id content)
  else
    .error (.unsupportedLanguage lang)

/-- The pattern the source selects for a supported language tag (used
only to state theorems uniformly over the two branches). -/
def patOf (lang : String) : Pat :=
  if lang = "zh-cn" then .zh else .en

/-- The `spine_uid` label the source selects for a supported language
tag: `'目录'` for `'zh-cn'` and `'Table of Content'` for `'en'`. -/
def uidOf (lang : String) : Str :=
  if lang = "zh-cn" then "目录".data else "Table of Content".data

/-! ### Decomposition lemmas for the matcher -/

theorem groupMatch_decomp {p : Pat} {s g r : Str}
    (h : groupMatch p s = some (g, r)) : s = g ++ r ∧ g ≠ [] := by
  cases p with
  | en =>
    cases s with
    | nil => simp [groupMatch] at h
    | cons c cs =>
      simp only [groupMatch] at h
      split at h
      · simp only [Option.some.injEq, Prod.mk.injEq] at h
        obtain ⟨hg, hr⟩ := h
        subst hg hr
        refine ⟨?_, by simp⟩
        rw [List.cons_append, List.takeWhile_append_dropWhile]
      · exact absurd h (by simp)
  | zh =>
    cases s with
    | nil => simp [groupMatch] at h
    | cons c cs =>
      simp only [groupMatch] at h
      split at h
      · split at h
        next u r2 heq =>
          split at h
          · simp only [Option.some.injEq, Prod.mk.injEq] at h
            obtain ⟨hg, hr⟩ := h
            subst hg hr
            refine ⟨?_, by simp⟩
            have hcs : cs.takeWhile (zhNumeralChars.contains ·) ++
                (u :: r2) = cs := by
              rw [← heq, List.takeWhile_append_dropWhile]
            calc c :: cs
                = c :: (cs.takeWhile (zhNumeralChars.contains ·) ++
                    (u :: r2)) := by rw [hcs]
              _ = _ := by
                  rw [← List.takeWhile_append_dropWhile (p := notNl) (l := r2)]
                  simp
          · exact absurd h (by simp)
        next heq => exact absurd h (by simp)
      · exact absurd h (by simp)

theorem tryMatch_decomp {p : Pat} {s l g t r : Str}
    (h : tryMatch p s = some (l, g, t, r)) :
    s = l ++ g ++ t ++ r ∧ g ≠ [] ∧
      (∀ c ∈ l, pyIsSpace c = true) ∧ (∀ c ∈ t, pyIsSpace c = true) := by
  simp only [tryMatch] at h
  split at h
  · exact absurd h (by simp)
  next g' r' heq =>
    simp only [Option.some.injEq, Prod.mk.injEq] at h
    obtain ⟨hl, hg, ht, hr⟩ := h
    obtain ⟨hsplit, hne⟩ := groupMatch_decomp heq
    subst hl hg ht hr
    refine ⟨?_, hne, ?_, ?_⟩
    · conv_lhs => rw [← List.takeWhile_append_dropWhile (p := pyIsSpace) (l := s)]
      rw [hsplit]
      conv_lhs =>
        rw [← List.takeWhile_append_dropWhile (p := pyIsSpace) (l := r')]
      simp
    · exact fun c hc => List.mem_takeWhile_imp hc
    · exact fun c hc => List.mem_takeWhile_imp hc

theorem findNext_decomp {p : Pat} {s : Str} :
    ∀ {a : Bool} {b l g t r : Str}, findNext p s a = some (b, l, g, t, r) →
    s = b ++ l ++ g ++ t ++ r ∧ g ≠ [] ∧
      (∀ c ∈ l, pyIsSpace c = true) ∧ (∀ c ∈ t, pyIsSpace c = true) := by
  induction s with
  | nil => intro a b l g t r h; simp [findNext] at h
  | cons c cs ih =>
    intro a b l g t r h
    simp only [findNext] at h
    split at h
    next l' g' t' r' heq =>
      simp only [Option.some.injEq, Prod.mk.injEq] at h
      obtain ⟨hb, hl, hg, ht, hr⟩ := h
      subst hb hl hg ht hr
      split at heq
      · have hm := tryMatch_decomp heq
        simpa using hm
      · exact absurd heq (by simp)
    next heq =>
      rw [Option.map_eq_some'] at h
      obtain ⟨⟨b', rest⟩, hfn, hx⟩ := h
      obtain ⟨l', g', t', r'⟩ := rest
      simp only [Prod.mk.injEq] at hx
      obtain ⟨hb, hl, hg, ht, hr⟩ := hx
      subst hb hl hg ht hr
      obtain ⟨hs, hne, hwl, hwt⟩ := ih hfn
      refine ⟨?_, hne, hwl, hwt⟩
      simp [hs, List.append_assoc]

/-- Reconstruction invariant of the scanner: the scanned text is the
piece before the first match followed by, for every match, the consumed
leading whitespace, the captured heading, the consumed trailing
whitespace and the body; and all consumed characters are whitespace. -/
theorem segAuxFuel_recon (p : Pat) :
    ∀ (fuel : Nat) (s : Str) (a : Bool),
    s = (segAuxFuel p fuel s a).1 ++
        ((segAuxFuel p fuel s a).2.flatMap
          (fun m => m.lead ++ m.heading ++ m.trail ++ m.body)) ∧
    ∀ m ∈ (segAuxFuel p fuel s a).2,
      (∀ c ∈ m.lead, pyIsSpace c = true) ∧ (∀ c ∈ m.trail, pyIsSpace c = true) := by
  intro fuel
  induction fuel with
  | zero => intro s a; simp [segAuxFuel]
  | succ fuel ih =>
    intro s a
    simp only [segAuxFuel]
    split
    · simp
    next b l g t r heq =>
      obtain ⟨hs, _, hwl, hwt⟩ := findNext_decomp heq
      obtain ⟨ih1, ih2⟩ := ih r ((b ++ l ++ g ++ t).getLast? == some '\n')
      constructor
      · simp only [List.flatMap_cons]
        conv_lhs => rw [hs, ih1]
        simp [List.append_assoc]
      · intro m hm
        rcases List.mem_cons.mp hm with hm | hm
        · subst hm; exact ⟨hwl, hwt⟩
        · exact ih2 m hm

/-- `(x :: y :: l).getD (n + 2) = l.getD n`. -/
theorem getD_add_two {α : Type} (x y : α) (l : List α) (n : Nat) (d : α) :
    (x :: y :: l).getD (n + 2) d = l.getD n d := rfl

/-- Peeling one (heading, body) pair off the chapter loop. -/
theorem chaptersFromSplits_cons (pre hd bd : Str) (rest : List Str) :
    chaptersFromSplits (pre :: hd :: bd :: rest) =
      (hd, bd) :: chaptersFromSplits (pre :: rest) := by
  simp only [chaptersFromSplits, List.length_cons]
  have h1 : (rest.length + 1 + 1 + 1 - 1) / 2 = rest.length / 2 + 1 := by omega
  have h2 : (rest.length + 1 - 1) / 2 = rest.length / 2 := by omega
  rw [h1, h2, List.range_succ_eq_map, List.map_cons, List.map_map]
  constructor

/-- The chapter loop over the split list `[pre, C1, c1, ..., Cn, cn]`
returns exactly the (heading, body) pair of every match, in order. -/
theorem chaptersFromSplits_flatMap (pre : Str) (ms : List MatchRec) :
    chaptersFromSplits (pre :: ms.flatMap (fun m => [m.heading, m.body])) =
      ms.map (fun m => (m.heading, m.body)) := by
  induction ms generalizing pre with
  | nil => simp [chaptersFromSplits]
  | cons m ms ih =>
    simp only [List.flatMap_cons, List.cons_append, List.nil_append]
    rw [chaptersFromSplits_cons, ih, List.map_cons]

theorem chaptersOf_eq_matches (p : Pat) (s : Str) :
    chaptersOf p s = (segment p s).2.map (fun m => (m.heading, m.body)) := by
  unfold chaptersOf splitsOf
  exact chaptersFromSplits_flatMap _ _

theorem flatMap_pairs_length (ms : List MatchRec) :
    (ms.flatMap (fun m => [m.heading, m.body])).length = 2 * ms.length := by
  induction ms with
  | nil => simp
  | cons m ms ih =>
    rw [List.flatMap_cons, List.length_append, ih]
    simp only [List.length_cons, List.length_nil]
    omega

theorem splitsOf_length (p : Pat) (s : Str) :
    (splitsOf p s).length = 2 * (segment p s).2.length + 1 := by
  rw [splitsOf, List.length_cons, flatMap_pairs_length]

/-- `takeWhile`/`dropWhile` on a list whose prefix satisfies the
predicate and whose next element does not. -/
theorem takeWhile_all_append {q : Char → Bool} :
    ∀ (xs : Str) (y : Char) (ys : Str), (∀ c ∈ xs, q c = true) → q y = false →
      (xs ++ y :: ys).takeWhile q = xs ∧ (xs ++ y :: ys).dropWhile q = y :: ys := by
  intro xs
  induction xs with
  | nil =>
    intro y ys _ hy
    simp [List.takeWhile_cons, List.dropWhile_cons, hy]
  | cons x xs ih =>
    intro y ys hall hy
    have hx : q x = true := hall x (by simp)
    obtain ⟨ht, hd⟩ := ih y ys (fun c hc => hall c (by simp [hc])) hy
    simp [List.takeWhile_cons, List.dropWhile_cons, hx, ht, hd]

/-- Per-chapter fields of the built book: titles are the headings of the
matches, in order. -/
theorem buildPackage_titles (p : Pat) (uid : Str) (lang : String) (title : Str)
    (author id : Option String) (content : Str) :
    (buildPackage p uid lang title author id content).chapters.map
        (fun c => c.title) =
      (segment p content).2.map (fun m => m.heading) := by
  have h := chaptersOf_eq_matches p content
  have h1 : (chaptersOf p content).map (fun c => c.1) =
      (segment p content).2.map (fun m => m.heading) := by
    rw [h, List.map_map]; rfl
  rw [← h1]
  simp only [buildPackage, chaptersOf, chaptersFromSplits, List.map_map]
  rfl

/-- Counts of the built book: one chapter item and one toc entry per
match, and the spine holds the uid entry plus one entry per match. -/
theorem buildPackage_counts (p : Pat) (uid : Str) (lang : String) (title : Str)
    (author id : Option String) (content : Str) :
    (buildPackage p uid lang title author id content).chapters.length =
        (segment p content).2.length ∧
      (buildPackage p uid lang title author id content).toc.length =
        (segment p content).2.length ∧
      (buildPackage p uid lang title author id content).spine.length =
        (segment p content).2.length + 1 := by
  have hsp := splitsOf_length p content
  simp only [buildPackage, List.length_map, List.length_range, List.length_cons, hsp]
  omega

/-! ### The claims -/

/-- C1, counterexample: for the English pattern on `"Chapter 1\nHello"`,
concatenating preamble + headings + bodies gives `"Chapter 1Hello"`; the
newline after the heading, consumed by the uncaptured trailing `\s*`, is
dropped, so the split is not lossless as claimed. -/
theorem c1_counterexample :
    joinSplits .en "Chapter 1\nHello".data ≠ "Chapter 1\nHello".data := by
  decide

/-- C1 (amended): concatenating preamble + headings + bodies in order
reproduces the original text with exactly the whitespace runs that the
match consumed around each heading (the run before the heading and the
run after it, including newlines) deleted; reinserting those runs
reconstructs the original text exactly, for both supported languages. -/
theorem c1_lossless_up_to_consumed_whitespace (p : Pat) (s : Str) :
    s = (segment p s).1 ++
        ((segment p s).2.flatMap
          (fun m => m.lead ++ m.heading ++ m.trail ++ m.body)) ∧
    ∀ m ∈ (segment p s).2,
      (∀ c ∈ m.lead, pyIsSpace c = true) ∧ (∀ c ∈ m.trail, pyIsSpace c = true) :=
  segAuxFuel_recon p (s.length + 1) s true

/-- C2, code bug: `[Chapter]` in `r"^\s*([Chapter].*)\s*"` is a
character class, so the line `"apple"`, which begins with `'a'`, is a
chapter boundary with heading `"apple"`, although the spec (and the
`# English chapters` intent) require the literal token `"Chapter"`. -/
theorem c2_char_class_accepts_apple :
    chaptersOf .en "apple".data = [("apple".data, ([] : Str))] := by
  decide

/-- C3, counterexample: under the Chinese pattern the line `"第章"` — a
marker immediately followed by a unit token with no numeral in
between — IS a chapter boundary (the numeral class is starred), contrary
to the claim. -/
theorem c3_counterexample :
    chaptersOf .zh "第章".data = [("第章".data, ([] : Str))] := by
  decide

/-- C3 (amended): a line starts a chapter boundary if and only if, after
optional leading whitespace, it has a marker (第 or 卷), then zero or
more numeral characters (Arabic or Chinese), then a unit token
(章, 回, 部, 节, 集 or 卷); the numeral part may be empty. -/
theorem c3_zh_boundary_iff (s : Str) :
    (tryMatch .zh s).isSome = true ↔
      ∃ w m ns u r, s = w ++ m :: (ns ++ u :: r) ∧
        (∀ c ∈ w, pyIsSpace c = true) ∧
        zhMarkerChars.contains m = true ∧
        (∀ c ∈ ns, zhNumeralChars.contains c = true) ∧
        zhUnitChars.contains u = true := by
  constructor
  · intro h
    unfold tryMatch at h
    cases hgm : groupMatch .zh (s.dropWhile pyIsSpace) with
    | none => rw [hgm] at h; simp at h
    | some gr =>
      cases hdw : s.dropWhile pyIsSpace with
      | nil => rw [hdw] at hgm; simp [groupMatch] at hgm
      | cons c cs =>
        rw [hdw] at hgm
        simp only [groupMatch] at hgm
        split at hgm
        next hc =>
          split at hgm
          next u r2 hdw2 =>
            split at hgm
            next hu =>
              refine ⟨s.takeWhile pyIsSpace, c,
                cs.takeWhile (zhNumeralChars.contains ·), u, r2, ?_, ?_, hc, ?_, hu⟩
              · conv_lhs =>
                  rw [← List.takeWhile_append_dropWhile (p := pyIsSpace) (l := s)]
                rw [hdw]
                congr 1
                rw [← hdw2, List.takeWhile_append_dropWhile]
              · exact fun x hx => List.mem_takeWhile_imp hx
              · exact fun x hx => List.mem_takeWhile_imp hx
            · exact absurd hgm (by simp)
          next hdw2 => exact absurd hgm (by simp)
        next hc => exact absurd hgm (by simp)
  · rintro ⟨w, m, ns, u, r, hs, hw, hm, hns, hu⟩
    have hmns : pyIsSpace m = false := by
      have hcase : m = '第' ∨ m = '卷' := by simpa [zhMarkerChars] using hm
      rcases hcase with h | h <;> subst h <;> decide
    have hnu : zhNumeralChars.contains u = false := by
      have hcase : u = '章' ∨ u = '回' ∨ u = '部' ∨ u = '节' ∨ u = '集' ∨
          u = '卷' := by simpa [zhUnitChars] using hu
      rcases hcase with h | h | h | h | h | h <;> subst h <;> decide
    obtain ⟨htake, hdrop⟩ :=
      takeWhile_all_append w m (ns ++ u :: r) hw hmns
    obtain ⟨htake2, hdrop2⟩ := takeWhile_all_append ns u r hns hnu
    have hu' : u ∈ zhUnitChars := by simpa using hu
    have hm' : m ∈ zhMarkerChars := by simpa using hm
    rw [hs]
    unfold tryMatch
    rw [hdrop]
    simp only [groupMatch]
    rw [hdrop2]
    simp [hm', hu']

/-- C4: whenever the resolved language tag is neither `'zh-cn'` nor
`'en'`, the conversion stops with the unsupported-language outcome and
no book is produced (the source prints and returns before
`write_epub`). -/
theorem c4_unsupported_language (content title : Str) (author id : Option String)
    (langOpt : Option String) (d : Except String String)
    (h1 : (resolveLang langOpt d).1 ≠ "zh-cn")
    (h2 : (resolveLang langOpt d).1 ≠ "en") :
    txtToEpub content author title id langOpt d =
      .error (.unsupportedLanguage (resolveLang langOpt d).1) := by
  unfold txtToEpub
  simp [h1, h2]

/-- Witness for C4 at the spec's scenario: explicit tag `"fr"`. -/
theorem c4_witness :
    (resolveLang (some "fr") (.ok "en")).1 ≠ "zh-cn" ∧
    (resolveLang (some "fr") (.ok "en")).1 ≠ "en" ∧
    txtToEpub "Chapter 1\nHello".data none "t".data none (some "fr") (.ok "en") =
      .error (.unsupportedLanguage "fr") := by
  refine ⟨by decide, by decide, ?_⟩
  exact c4_unsupported_language "Chapter 1\nHello".data "t".data none none
    (some "fr") (.ok "en") (by decide) (by decide)

/-- C5: an explicitly supplied non-empty language tag is returned
unchanged, for every detector outcome (so the text is never inspected
and no validation against the content occurs), and no warning is
recorded. -/
theorem c5_explicit_lang_unchanged (tag : String) (d : Except String String)
    (h : tag ≠ "") :
    resolveLang (some tag) d = (tag, none) := by
  unfold resolveLang isFalsy
  rw [if_neg]
  · rfl
  · simpa using h

/-- Witness for C5: tag `"xx"` survives even a failing detector. -/
theorem c5_witness :
    ("xx" : String) ≠ "" ∧
      resolveLang (some "xx") (.error "boom") = ("xx", none) :=
  ⟨by decide, c5_explicit_lang_unchanged "xx" (.error "boom") (by decide)⟩

/-- C6: with no explicit tag, any detector error makes the resolver
return the fixed fallback `'zh-cn'` together with the recorded warning
message; the detector's error is not propagated (the resolver is a total
function). -/
theorem c6_detector_error_falls_back (e : String) :
    resolveLang none (.error e) =
      ("zh-cn", some ("Error in language detection: " ++ e ++
        ", use zh-cn instead.")) := rfl

/-- C7: for a supported language, a text with zero boundary matches
still converts successfully into a book that carries the metadata, the
navigation (NCX and Nav items, uid-seeded spine) and an empty chapter
list — packaging does not fail. -/
theorem c7_zero_matches_still_packages (content title : Str)
    (author id : Option String) (l : String) (d : Except String String)
    (hl : l = "en" ∨ l = "zh-cn")
    (hm : (segment (patOf l) content).2 = []) :
    ∃ pkg, txtToEpub content author title id (some l) d = .ok pkg ∧
      pkg.chapters = [] ∧ pkg.toc = [] ∧
      pkg.spine = [SpineItem.uid (uidOf l)] ∧
      pkg.hasNcx = true ∧ pkg.hasNav = true ∧
      pkg.title = title ∧ pkg.lang = l := by
  rcases hl with hl | hl <;> subst hl
  · refine ⟨buildPackage .en "Table of Content".data "en" title author id content,
      rfl, ?_, ?_, ?_, rfl, rfl, rfl, rfl⟩ <;>
    · have hm' : (segment .en content).2 = [] := hm
      have hsp : splitsOf .en content = [(segment .en content).1] := by
        rw [splitsOf, hm']; rfl
      simp [buildPackage, hsp, uidOf]
  · refine ⟨buildPackage .zh "目录".data "zh-cn" title author id content,
      rfl, ?_, ?_, ?_, rfl, rfl, rfl, rfl⟩ <;>
    · have hm' : (segment .zh content).2 = [] := hm
      have hsp : splitsOf .zh content = [(segment .zh content).1] := by
        rw [splitsOf, hm']; rfl
      simp [buildPackage, hsp, uidOf]

/-- Witness for C7: language `"en"`, text `"XYZ"` (no boundary). -/
theorem c7_witness :
    (("en" : String) = "en" ∨ ("en" : String) = "zh-cn") ∧
    (segment (patOf "en") "XYZ".data).2 = [] ∧
    ∃ pkg, txtToEpub "XYZ".data none "t".data none (some "en") (.ok "en") =
        .ok pkg ∧
      pkg.chapters = [] ∧ pkg.toc = [] ∧
      pkg.spine = [SpineItem.uid (uidOf "en")] ∧
      pkg.hasNcx = true ∧ pkg.hasNav = true ∧
      pkg.title = "t".data ∧ pkg.lang = "en" :=
  ⟨Or.inl rfl, by decide,
    c7_zero_matches_still_packages "XYZ".data "t".data none none "en" (.ok "en")
      (Or.inl rfl) (by decide)⟩

/-- C8: for every text and supported language, the spine starts with the
navigation placeholder keyed by the language label (`'目录'` for
`'zh-cn'`, `'Table of Content'` for `'en'`) and then lists exactly the
chapters, in their order of appearance (their titles are the matched
headings in match order). -/
theorem c8_spine_starts_with_nav (content title : Str)
    (author id : Option String) (l : String) (d : Except String String)
    (hl : l = "en" ∨ l = "zh-cn") :
    ∃ pkg, txtToEpub content author title id (some l) d = .ok pkg ∧
      pkg.navUid = uidOf l ∧
      pkg.spine = SpineItem.uid (uidOf l) :: pkg.chapters.map SpineItem.chap ∧
      pkg.chapters.map (fun c => c.title) =
        (segment (patOf l) content).2.map (fun m => m.heading) := by
  rcases hl with hl | hl <;> subst hl
  · exact ⟨buildPackage .en "Table of Content".data "en" title author id content,
      rfl, rfl, rfl,
      buildPackage_titles .en "Table of Content".data "en" title author id content⟩
  · exact ⟨buildPackage .zh "目录".data "zh-cn" title author id content,
      rfl, rfl, rfl,
      buildPackage_titles .zh "目录".data "zh-cn" title author id content⟩

/-- Witness for C8 on a concrete two-chapter text. -/
theorem c8_witness :
    (("en" : String) = "en" ∨ ("en" : String) = "zh-cn") ∧
    ∃ pkg, txtToEpub "Chapter 1\nHi".data none "t".data none (some "en")
        (.ok "en") = .ok pkg ∧
      pkg.navUid = uidOf "en" ∧
      pkg.spine = SpineItem.uid (uidOf "en") :: pkg.chapters.map SpineItem.chap ∧
      pkg.chapters.map (fun c => c.title) =
        (segment (patOf "en") "Chapter 1\nHi".data).2.map (fun m => m.heading) :=
  ⟨Or.inl rfl,
    c8_spine_starts_with_nav "Chapter 1\nHi".data "t".data none none "en"
      (.ok "en") (Or.inl rfl)⟩

/-- C9: the spec's round-trip scenario.  Splitting
`"Chapter 1\nHello\nChapter 2\nWorld"` as English yields the chapters
`("Chapter 1", "Hello\n")` and `("Chapter 2", "World")` and the built
book has exactly two chapter items and two toc entries, in that order. -/
theorem c9_round_trip :
    chaptersOf .en "Chapter 1\nHello\nChapter 2\nWorld".data =
      [("Chapter 1".data, "Hello\n".data), ("Chapter 2".data, "World".data)] ∧
    ∃ pkg, txtToEpub "Chapter 1\nHello\nChapter 2\nWorld".data none "t".data
        none (some "en") (.ok "en") = .ok pkg ∧
      pkg.chapters.length = 2 ∧ pkg.toc.length = 2 ∧
      pkg.chapters.map (fun c => c.title) =
        ["Chapter 1".data, "Chapter 2".data] ∧
      pkg.toc.map (fun e => e.title) =
        ["Chapter 1".data, "Chapter 2".data] := by
  refine ⟨by decide,
    buildPackage .en "Table of Content".data "en" "t".data none none
      "Chapter 1\nHello\nChapter 2\nWorld".data,
    rfl, by decide, by decide, by decide, by decide⟩

/-- C10: the split list always has odd length `2n + 1` for `n` boundary
matches, and the loop over odd indices processes every match exactly
once: the extracted chapters are exactly the (heading, body) pairs of
the matches, so the final chapter is never dropped, and the built book
has one chapter item and one toc entry per match plus the single extra
spine entry. -/
theorem c10_loop_covers_all_matches (p : Pat) (s : Str) :
    (splitsOf p s).length = 2 * (segment p s).2.length + 1 ∧
    chaptersOf p s = (segment p s).2.map (fun m => (m.heading, m.body)) ∧
    ∀ (uid : Str) (lang : String) (title : Str) (author id : Option String),
      (buildPackage p uid lang title author id s).chapters.length =
          (segment p s).2.length ∧
        (buildPackage p uid lang title author id s).toc.length =
          (segment p s).2.length ∧
        (buildPackage p uid lang title author id s).spine.length =
          (segment p s).2.length + 1 :=
  ⟨splitsOf_length p s, chaptersOf_eq_matches p s,
    fun uid lang title author id => buildPackage_counts p uid lang title author id s⟩

end Txt2Epub
